import Mathlib

/-!
Shallow embedding of `src/optimizer.py` (class `RouteOptimizer`), a field-visit
route planner: haversine distance, travel-time estimation, time-bounded greedy
clustering of a day's visits, nearest-neighbour route ordering, round-robin
distribution of visit instances over the working days of a 90-day quarter,
greedy first-fit assignment of per-day route batches to employees, and the
top-level pipeline.

Modelling conventions:
* Python floats on data fields that the algorithms compare or sum (visit
  durations, the hour budget) are modelled as exact rationals `ℚ`; coordinate
  arithmetic, which goes through `sin`/`cos`/`sqrt`/`atan2`, is modelled over
  the reals `ℝ`.  `0.8` is the exact rational `4/5`.
* Calendar dates are modelled as day numbers (`Nat`, days since 1970-01-01);
  `weekday d = (d + 3) % 7` matches Python's `date.weekday()` (Monday = 0,
  1970-01-01 was a Thursday).  Weekday names and `'%Y-%m-%d'` strings are
  presentation only and are not modelled.
* Python's `sorted` is a stable sort; since a stable sort's output is uniquely
  determined by the key function, it is modelled by a stable insertion sort.
* Python dicts preserve insertion order; they are modelled as association
  lists with append-to-bucket update, exactly mirroring
  `visits_by_day[day].append(visit)` / `routes_by_day[day].append(route)`.
* Display-only fields of the source (`name`, `address`, `type` on points,
  `total_time_hours`, the rounding of report values to 1-2 decimals, weekday
  name strings) are omitted or kept exact; no claim depends on them.
-/

namespace RouteOptimizer

/-- A visit location, as built by `prepare_data`: identifier, coordinates,
visit duration in minutes, required visit frequency.  Display-only fields
(name, address, type) are omitted. -/
structure Point where
  id : Nat
  lat : ℝ
  lon : ℝ
  duration : ℚ
  frequency : Nat

instance : Inhabited Point := ⟨⟨0, 0, 0, 0, 0⟩⟩

/-- Degrees to radians, `math.radians`. -/
noncomputable def radians (x : ℝ) : ℝ := x * (Real.pi / 180)

/-- The two-argument arctangent `math.atan2 y x`, as the argument of the
complex number `x + y*I`. -/
noncomputable def atan2 (y x : ℝ) : ℝ := Complex.arg (Complex.ofReal x + Complex.ofReal y * Complex.I)

/-- The intermediate `a` of the haversine formula in `calculate_distance`. -/
noncomputable def haversine_a (lat1 lon1 lat2 lon2 : ℝ) : ℝ :=
  Real.sin (radians (lat2 - lat1) / 2) ^ 2 +
    Real.cos (radians lat1) * Real.cos (radians lat2) *
      Real.sin (radians (lon2 - lon1) / 2) ^ 2

/-- Haversine great-circle distance in km, `calculate_distance`: the Earth
radius `R = 6371` times `c = 2 * atan2(sqrt a, sqrt (1 - a))`. -/
noncomputable def calculate_distance (lat1 lon1 lat2 lon2 : ℝ) : ℝ :=
  6371 * (2 * atan2 (Real.sqrt (haversine_a lat1 lon1 lat2 lon2))
    (Real.sqrt (1 - haversine_a lat1 lon1 lat2 lon2)))

/-- Travel time in minutes at a given average speed, `estimate_travel_time`.
The source's default speed (30 km/h) is passed explicitly at call sites. -/
noncomputable def estimate_travel_time (distance_km avg_speed_kmh : ℝ) : ℝ :=
  distance_km / avg_speed_kmh * 60

/-- Sum of the service durations of a list of points. -/
def sumDur (l : List Point) : ℚ := (l.map Point.duration).sum

/-- Stable insertion into a sorted list: `x` goes before the first element it
compares `le` to.  Together with `sortLe` this models Python's stable
`sorted`. -/
def insertLe (le : α → α → Bool) (x : α) : List α → List α
  | [] => [x]
  | y :: ys => if le x y then x :: y :: ys else y :: insertLe le x ys

/-- Stable insertion sort; produces the same output as any stable sort with
the same key, in particular Python's `sorted`. -/
def sortLe (le : α → α → Bool) : List α → List α
  | [] => []
  | x :: xs => insertLe le x (sortLe le xs)

/-- Sort a day's points by haversine distance to their centroid (mean
latitude/longitude), ascending — the `points_sorted` of
`cluster_points_by_time`. -/
noncomputable def sortByCentroid (points : List Point) : List Point :=
  let center_lat := (points.map Point.lat).sum / points.length
  let center_lon := (points.map Point.lon).sum / points.length
  sortLe (fun a b =>
    decide (calculate_distance a.lat a.lon center_lat center_lon ≤
      calculate_distance b.lat b.lon center_lat center_lon)) points

/-- One iteration of the clustering loop of `cluster_points_by_time`: state is
(closed clusters, current cluster, current service-time sum). -/
def clusterStep (thr : ℚ) (st : List (List Point) × List Point × ℚ) (p : Point) :
    List (List Point) × List Point × ℚ :=
  if thr < st.2.2 + p.duration then
    ((if st.2.1.isEmpty then st.1 else st.1 ++ [st.2.1]), [p], p.duration)
  else
    (st.1, st.2.1 ++ [p], st.2.2 + p.duration)

/-- Close the final cluster after the loop, as the source does. -/
def clusterFinish (st : List (List Point) × List Point × ℚ) : List (List Point) :=
  if st.2.1.isEmpty then st.1 else st.1 ++ [st.2.1]

/-- The greedy accumulation part of `cluster_points_by_time`, run on the
already-sorted point list with threshold `thr = max_hours * 60 * 0.8`. -/
def clusterGreedy (l : List Point) (thr : ℚ) : List (List Point) :=
  clusterFinish (l.foldl (clusterStep thr) ([], [], 0))

/-- Time-bounded clustering of a day's points, `cluster_points_by_time`. -/
noncomputable def cluster_points_by_time (points : List Point) (max_hours : ℚ) :
    List (List Point) :=
  if points.isEmpty then []
  else clusterGreedy (sortByCentroid points) (max_hours * 60 * (4 / 5))

/-- Select the unvisited point nearest to `last` (first index on ties, as
Python's `min` over indices) and return it with the remaining list — models
the `nearest_idx` / `pop` step of `solve_tsp`. -/
noncomputable def selectNearest (last : Point) : List Point → Option (Point × List Point)
  | [] => none
  | x :: xs =>
    match selectNearest last xs with
    | none => some (x, [])
    | some (y, ys) =>
      if calculate_distance last.lat last.lon y.lat y.lon <
          calculate_distance last.lat last.lon x.lat x.lon
      then some (y, x :: ys)
      else some (x, xs)

/-- The nearest-neighbour loop of `solve_tsp`; the fuel equals the number of
unvisited points, which `selectNearest` decreases by one each step. -/
noncomputable def tspGo : Nat → Point → List Point → List Point
  | 0, _, _ => []
  | fuel + 1, last, unvisited =>
    match selectNearest last unvisited with
    | none => []
    | some (y, ys) => y :: tspGo fuel y ys

/-- Greedy nearest-neighbour route ordering, `solve_tsp`. -/
noncomputable def solve_tsp (points : List Point) : List Point :=
  if points.length ≤ 1 then points
  else
    match points with
    | [] => []
    | p :: rest => p :: tspGo rest.length p rest

/-- A dated route with its derived metrics, as assembled by
`optimize_routes_for_day` (the display-only `total_time_hours` rounding is
omitted).  `date`/`day_of_week` are stamped later by `optimize`; the source
initialises them to placeholder strings, modelled by `0`. -/
structure Route where
  route_id : String
  employee_id : String
  date : Nat
  day_of_week : Nat
  points : List Point
  total_points : Nat
  service_time_min : ℚ
  travel_time_min : ℝ
  total_time_min : ℝ

/-- Travel time along consecutive pairs of an ordered route, summing
`estimate_travel_time` of the pairwise haversine distances at the default
30 km/h — the `travel_time` loop of `optimize_routes_for_day`. -/
noncomputable def travelSum : List Point → ℝ
  | a :: b :: rest =>
    estimate_travel_time (calculate_distance a.lat a.lon b.lat b.lon) 30 +
      travelSum (b :: rest)
  | _ => 0

/-- Build one route record from a cluster: order it with `solve_tsp`, then
compute service, travel and total time as the source does. -/
noncomputable def mkRoute (cluster : List Point) (employee_id route_id : Nat) : Route :=
  let optimized := solve_tsp cluster
  let total_duration := sumDur optimized
  let travel_time := travelSum optimized
  { route_id := "R" ++ toString employee_id ++ "_" ++ toString route_id
    employee_id := "Сотрудник_" ++ toString employee_id
    date := 0
    day_of_week := 0
    points := optimized
    total_points := optimized.length
    service_time_min := total_duration
    travel_time_min := travel_time
    total_time_min := (total_duration : ℝ) + travel_time }

/-- The per-cluster loop of `optimize_routes_for_day`: skip empty clusters
(without consuming a route id), otherwise build the route and increment the
id, exactly as the source's `route_id` counter does. -/
noncomputable def buildRoutes : List (List Point) → Nat → Nat → List Route
  | [], _, _ => []
  | c :: rest, eid, rid =>
    if c.isEmpty then buildRoutes rest eid rid
    else mkRoute c eid rid :: buildRoutes rest eid (rid + 1)

/-- Route construction for one day's points, `optimize_routes_for_day`. -/
noncomputable def optimize_routes_for_day (day_points : List Point) (max_hours : ℚ)
    (employee_id : Nat) : List Route :=
  if day_points.isEmpty then []
  else buildRoutes (cluster_points_by_time day_points max_hours) employee_id 1

/-- The working days of the quarter: 90 consecutive day numbers from `start`,
weekends (weekday ≥ 5) removed, in ascending order. -/
def quarterDays (start : Nat) : List Nat :=
  ((List.range 90).map (fun i => start + i)).filter (fun d => (d + 3) % 7 < 5)

/-- Expansion of the point catalogue into visit instances: `frequency` copies
of each point, falling back to one copy per point when the list would be
empty (the all-frequencies-zero normalisation of the source). -/
def expandVisits (points : List Point) : List Point :=
  if (points.flatMap (fun p => List.replicate p.frequency p)).isEmpty then points
  else points.flatMap (fun p => List.replicate p.frequency p)

/-- Append a visit to the bucket of `day`, creating the bucket at the end on
first use — Python's insertion-ordered `visits_by_day[day].append(visit)`. -/
def addVisit : List (Nat × List Point) → Nat → Point → List (Nat × List Point)
  | [], day, v => [(day, [v])]
  | e :: rest, day, v =>
    if e.1 = day then (e.1, e.2 ++ [v]) :: rest else e :: addVisit rest day v

/-- Dict lookup in the day-to-visits mapping (empty list when absent). -/
def mlookup : List (Nat × List Point) → Nat → List Point
  | [], _ => []
  | e :: rest, k => if e.1 = k then e.2 else mlookup rest k

/-- The enumerate-loop of `distribute_visits_by_quarter`: visit `i` goes to
the bucket of day `days[i % days.length]`. -/
def buildVisitMapFrom (days : List Nat) : Nat → List Point → List (Nat × List Point) →
    List (Nat × List Point)
  | _, [], m => m
  | i, v :: vs, m =>
    buildVisitMapFrom days (i + 1) vs (addVisit m (days.getD (i % days.length) 0) v)

/-- Round-robin distribution of the visit list over the working days. -/
def buildVisitMap (visits : List Point) (days : List Nat) : List (Nat × List Point) :=
  buildVisitMapFrom days 0 visits []

/-- Distribution of all visit instances over the quarter's working days,
`distribute_visits_by_quarter` (with an explicit start date). -/
def distribute_visits_by_quarter (points : List Point) (start : Nat) :
    List (Nat × List Point) :=
  if (quarterDays start).length = 0 then []
  else buildVisitMap (expandVisits points) (quarterDays start)

/-- An employee and the routes assigned to it, mirroring the per-employee
dicts of `assign_routes_to_employees`. -/
structure Emp where
  id : Nat
  routes : List Route

/-- Number of distinct calendar days among a route list —
`len(set(r['date'] for r in routes))`. -/
def distinctDays (rs : List Route) : Nat := ((rs.map Route.date).dedup).length

/-- Append a route to the bucket of its day, creating the bucket at the end
on first use — `routes_by_day[day].append(route)`. -/
def addRoute : List (Nat × List Route) → Nat → Route → List (Nat × List Route)
  | [], day, r => [(day, [r])]
  | e :: rest, day, r =>
    if e.1 = day then (e.1, e.2 ++ [r]) :: rest else e :: addRoute rest day r

/-- Dict lookup in the day-to-routes mapping (empty list when absent). -/
def rlookup : List (Nat × List Route) → Nat → List Route
  | [], _ => []
  | e :: rest, k => if e.1 = k then e.2 else rlookup rest k

/-- Group routes by calendar day, in input order. -/
def routesByDay (all_routes : List Route) : List (Nat × List Route) :=
  all_routes.foldl (fun m r => addRoute m r.date r) []

/-- The days of the grouping, sorted ascending — `sorted(routes_by_day.keys())`. -/
def sortedDays (m : List (Nat × List Route)) : List Nat :=
  sortLe (fun a b => decide (a ≤ b)) (m.map Prod.fst)

/-- Rewrite a route's owner, `route['employee_id'] = f'Сотрудник_{id}'`. -/
def setEmp (eid : Nat) (r : Route) : Route :=
  { r with employee_id := "Сотрудник_" ++ toString eid }

/-- Scan the existing employees in creation order and give the whole day's
batch to the first one with spare day capacity that does not already work
that day; `none` when no employee qualifies. -/
def tryAssign (maxDays day : Nat) (dayRoutes : List Route) : List Emp → Option (List Emp)
  | [] => none
  | e :: rest =>
    if ((e.routes.map Route.date).dedup).length < maxDays ∧
        day ∉ (e.routes.map Route.date).dedup then
      some ({ e with routes := e.routes ++ dayRoutes.map (setEmp e.id) } :: rest)
    else (tryAssign maxDays day dayRoutes rest).map (fun es => e :: es)

/-- One day of the per-day loop of `assign_routes_to_employees`: state is the
employee list plus the next employee id (the source's `employee_counter`); an
unassignable day creates a new employee at the end. -/
def assignStep (maxDays : Nat) (byDay : List (Nat × List Route))
    (st : List Emp × Nat) (day : Nat) : List Emp × Nat :=
  match tryAssign maxDays day (rlookup byDay day) st.1 with
  | some emps => (emps, st.2)
  | none => (st.1 ++ [⟨st.2, (rlookup byDay day).map (setEmp st.2)⟩], st.2 + 1)

/-- The per-day loop of `assign_routes_to_employees` over the sorted days,
starting from no employees and counter 1. -/
def assignFold (maxDays : Nat) (byDay : List (Nat × List Route)) (days : List Nat) :
    List Emp × Nat :=
  days.foldl (assignStep maxDays byDay) ([], 1)

/-- The employee list produced by `assign_routes_to_employees` just before it
is flattened into the final route list. -/
def assignEmployees (all_routes : List Route) (maxDays : Nat) : List Emp :=
  (assignFold maxDays (routesByDay all_routes) (sortedDays (routesByDay all_routes))).1

/-- Greedy first-fit assignment of per-day route batches to employees,
`assign_routes_to_employees`: returns the flattened route list in
employee-then-route order together with the number of employees. -/
def assign_routes_to_employees (all_routes : List Route) (maxDays : Nat) :
    List Route × Nat :=
  match all_routes with
  | [] => ([], 0)
  | _ :: _ =>
    let emps := assignEmployees all_routes maxDays
    (emps.flatMap Emp.routes, emps.length)

/-- Outcome of the pipeline: a failure with the source's error string, or the
full result payload (parameter echo, summary aggregates kept exact instead of
rounded for display, final routes, and per-employee statistics
`(id, route count, distinct day count)`). -/
inductive OptResult where
  | failure (error : String)
  | success (max_hours_per_day : ℚ) (max_days_per_week : Nat) (start_date : Nat)
      (total_employees total_routes total_points : Nat)
      (avg_routes_per_employee : ℚ) (total_service_min : ℚ) (total_travel_min : ℝ)
      (routes : List Route) (employees : List (Nat × Nat × Nat))

/-- Stamp the calendar day and weekday on a day's freshly built routes, as
`optimize` does after `optimize_routes_for_day`. -/
noncomputable def stampRoutes (day : Nat) (rs : List Route) : List Route :=
  rs.map (fun r => { r with date := day, day_of_week := (day + 3) % 7 })

/-- The top-level pipeline, `optimize`.  `start_date = none` models the
omitted parameter, in which case the current date `now` is used — threading
`now` explicitly makes the source's only impurity visible. -/
noncomputable def optimize (points : List Point) (max_hours_per_day : ℚ)
    (max_days_per_week : Nat) (start_date : Option Nat) (now : Nat) : OptResult :=
  let start := start_date.getD now
  let visits_by_day := distribute_visits_by_quarter points start
  if visits_by_day.isEmpty then .failure "Нет рабочих дней для планирования"
  else
    let all_routes := visits_by_day.flatMap (fun dv =>
      if dv.2.isEmpty then []
      else stampRoutes dv.1 (optimize_routes_for_day dv.2 max_hours_per_day 1))
    if all_routes.isEmpty then .failure "Не удалось создать маршруты"
    else
      let fr := assign_routes_to_employees all_routes max_days_per_week
      .success max_hours_per_day max_days_per_week start
        fr.2 fr.1.length (fr.1.map (fun r => r.points.length)).sum
        (if fr.2 = 0 then 0 else (fr.1.length : ℚ) / fr.2)
        (fr.1.map Route.service_time_min).sum
        (fr.1.map Route.travel_time_min).sum
        fr.1
        ((List.range fr.2).map (fun i =>
          (i + 1,
            (fr.1.filter (fun r => r.employee_id == "Сотрудник_" ++ toString (i + 1))).length,
            ((fr.1.filter (fun r =>
              r.employee_id == "Сотрудник_" ++ toString (i + 1))).map Route.date).dedup.length)))

/-- A sample point used to instantiate universally quantified theorems on
concrete inputs: one 60-minute visit, frequency 1, at the origin. -/
def pEx : Point := ⟨0, 0, 0, 60, 1⟩

/-- A sample point with frequency 0. -/
def pExZero : Point := ⟨1, 0, 0, 60, 0⟩

theorem insertLe_perm (le : α → α → Bool) (x : α) (l : List α) :
    (insertLe le x l).Perm (x :: l) := by
  induction l with
  | nil => exact List.Perm.refl _
  | cons y ys ih =>
    unfold insertLe
    split
    · exact List.Perm.refl _
    · exact (ih.cons y).trans (List.Perm.swap x y ys)

theorem sortLe_perm (le : α → α → Bool) (l : List α) : (sortLe le l).Perm l := by
  induction l with
  | nil => exact List.Perm.refl _
  | cons x xs ih => exact (insertLe_perm le x (sortLe le xs)).trans (ih.cons x)

theorem sortLe_all_eq (le : α → α → Bool) (l : List α) (a : α)
    (h : ∀ x ∈ l, x = a) : sortLe le l = l := by
  have hp := sortLe_perm le l
  have h1 : sortLe le l = List.replicate l.length a :=
    List.eq_replicate_iff.2 ⟨hp.length_eq, fun b hb => h b (hp.mem_iff.1 hb)⟩
  have h2 : l = List.replicate l.length a := List.eq_replicate_iff.2 ⟨rfl, h⟩
  rw [h1, ← h2]

theorem sortByCentroid_perm (l : List Point) : (sortByCentroid l).Perm l :=
  sortLe_perm _ l

theorem sortByCentroid_all_eq (l : List Point) (p : Point) (h : ∀ x ∈ l, x = p) :
    sortByCentroid l = l :=
  sortLe_all_eq _ l p h

theorem haversine_a_symm (lat1 lon1 lat2 lon2 : ℝ) :
    haversine_a lat1 lon1 lat2 lon2 = haversine_a lat2 lon2 lat1 lon1 := by
  have hsin : ∀ x y : ℝ,
      Real.sin (radians (x - y) / 2) ^ 2 = Real.sin (radians (y - x) / 2) ^ 2 := by
    intro x y
    have hx : radians (x - y) / 2 = -(radians (y - x) / 2) := by unfold radians; ring
    rw [hx, Real.sin_neg]
    ring
  unfold haversine_a
  rw [hsin lat2 lat1, hsin lon2 lon1]
  ring

theorem haversine_a_self (lat lon : ℝ) : haversine_a lat lon lat lon = 0 := by
  unfold haversine_a radians
  simp

theorem atan2_nonneg (y x : ℝ) (hy : 0 ≤ y) : 0 ≤ atan2 y x := by
  unfold atan2
  exact Complex.arg_nonneg_iff.2 (by simp [hy])

/-- C9: the haversine distance of `calculate_distance` is symmetric in its two
coordinate pairs, vanishes on equal coordinates, and is never negative. -/
theorem c9_distance_symm_zero_nonneg (lat1 lon1 lat2 lon2 : ℝ) :
    calculate_distance lat1 lon1 lat2 lon2 = calculate_distance lat2 lon2 lat1 lon1 ∧
    calculate_distance lat1 lon1 lat1 lon1 = 0 ∧
    0 ≤ calculate_distance lat1 lon1 lat2 lon2 := by
  refine ⟨?_, ?_, ?_⟩
  · unfold calculate_distance
    rw [haversine_a_symm]
  · unfold calculate_distance
    rw [haversine_a_self]
    simp [atan2, Complex.arg_one]
  · unfold calculate_distance
    have h := atan2_nonneg (Real.sqrt (haversine_a lat1 lon1 lat2 lon2))
      (Real.sqrt (1 - haversine_a lat1 lon1 lat2 lon2)) (Real.sqrt_nonneg _)
    have h2 : (0 : ℝ) ≤ 2 * atan2 (Real.sqrt (haversine_a lat1 lon1 lat2 lon2))
        (Real.sqrt (1 - haversine_a lat1 lon1 lat2 lon2)) := by linarith
    exact mul_nonneg (by norm_num) h2

/-- C8: with an explicit `start_date`, the pipeline's output does not depend
on the clock parameter `now` (the only impurity of the source), so two runs
with identical inputs produce identical results: the embedding of `optimize`
is a pure function of its inputs — sorting, tie-breaking by first index in
`solve_tsp`, and insertion-ordered grouping are all deterministic. -/
theorem c8_deterministic (points : List Point) (mh : ℚ) (md s now1 now2 : Nat) :
    optimize points mh md (some s) now1 = optimize points mh md (some s) now2 := rfl

theorem distribute_nil (s : Nat) : distribute_visits_by_quarter [] s = [] := by
  unfold distribute_visits_by_quarter
  split <;> rfl

/-- C1 (amended): for the empty point set, `distribute_visits_by_quarter`
returns an empty mapping, and `optimize` then returns the failure whose error
is the `no working days` message — the `no routes created` failure is not
reached, because `optimize` guards the empty mapping with the
`no working days` error. -/
theorem c1_empty_points_failure (s : Nat) (mh : ℚ) (md now : Nat) :
    distribute_visits_by_quarter [] s = [] ∧
    optimize [] mh md (some s) now =
      OptResult.failure "Нет рабочих дней для планирования" := by
  refine ⟨distribute_nil s, ?_⟩
  simp [optimize, distribute_nil]

/-- C1 counterexample: on the empty point set the pipeline fails with the
`no working days` message, not the `no routes created` message claimed. -/
theorem c1_counterexample :
    optimize [] 8 5 (some 0) 0 =
      OptResult.failure "Нет рабочих дней для планирования" ∧
    "Нет рабочих дней для планирования" ≠ "Не удалось создать маршруты" := by
  constructor
  · simp [optimize, distribute_nil]
  · decide

theorem length_expand_flatMap (pts : List Point) :
    (pts.flatMap (fun p => List.replicate p.frequency p)).length =
      (pts.map Point.frequency).sum := by
  rw [List.length_flatMap]
  congr 1
  simp [Function.comp]

/-- C4: the number of visit instances produced by the expansion step of
`distribute_visits_by_quarter` equals the sum of the points' frequencies when
some frequency is positive, and equals the number of points when every
frequency is zero (the all-zero fallback). -/
theorem c4_visit_count (pts : List Point) :
    ((∃ p ∈ pts, 0 < p.frequency) →
      (expandVisits pts).length = (pts.map Point.frequency).sum) ∧
    ((∀ p ∈ pts, p.frequency = 0) → (expandVisits pts).length = pts.length) := by
  constructor
  · rintro ⟨p, hp, hfreq⟩
    have hpos : 0 < (pts.flatMap (fun q => List.replicate q.frequency q)).length := by
      rw [length_expand_flatMap]
      calc 0 < p.frequency := hfreq
        _ ≤ (pts.map Point.frequency).sum :=
          List.single_le_sum (fun x _ => Nat.zero_le x) _ (List.mem_map_of_mem _ hp)
    unfold expandVisits
    rw [if_neg]
    · exact length_expand_flatMap pts
    · intro habs
      rw [List.isEmpty_iff] at habs
      rw [habs] at hpos
      simp at hpos
  · intro hall
    have hz : (pts.map Point.frequency).sum = 0 := by
      rw [List.sum_eq_zero_iff]
      intro x hx
      obtain ⟨p, hp, rfl⟩ := List.mem_map.1 hx
      exact hall p hp
    unfold expandVisits
    rw [if_pos]
    rw [List.isEmpty_iff, ← List.length_eq_zero, length_expand_flatMap, hz]

/-- Witness for C4 at concrete inputs: a one-point catalogue with frequency 1
expands to one visit, and a one-point catalogue with frequency 0 falls back to
one visit per point. -/
theorem c4_visit_count_witness :
    (expandVisits [pEx]).length = ([pEx].map Point.frequency).sum ∧
    (expandVisits [pExZero]).length = [pExZero].length := by
  constructor
  · exact (c4_visit_count [pEx]).1 ⟨pEx, List.mem_cons_self _ _, by decide⟩
  · exact (c4_visit_count [pExZero]).2 (by decide)


theorem sumDur_append (l1 l2 : List Point) : sumDur (l1 ++ l2) = sumDur l1 + sumDur l2 := by
  unfold sumDur
  rw [List.map_append, List.sum_append]

theorem sumDur_single (p : Point) : sumDur [p] = p.duration := by
  unfold sumDur
  simp

theorem clusterStep_eq (thr : ℚ) (done : List (List Point)) (cur : List Point)
    (t : ℚ) (p : Point) :
    clusterStep thr (done, cur, t) p =
      if thr < t + p.duration then
        ((if cur.isEmpty then done else done ++ [cur]), [p], p.duration)
      else (done, cur ++ [p], t + p.duration) := rfl

theorem clusterFinish_eq (done : List (List Point)) (cur : List Point) (t : ℚ) :
    clusterFinish (done, cur, t) = if cur.isEmpty then done else done ++ [cur] := rfl

theorem mem_closed (done : List (List Point)) (cur : List Point)
    (P : List Point → Prop)
    (hdone : ∀ c ∈ done, P c) (hcur : cur ≠ [] → P cur) :
    ∀ c ∈ (if cur.isEmpty then done else done ++ [cur]), P c := by
  intro c hc
  by_cases hcurE : cur.isEmpty
  · rw [if_pos hcurE] at hc
    exact hdone c hc
  · rw [if_neg hcurE] at hc
    rcases List.mem_append.1 hc with h | h
    · exact hdone c h
    · rw [List.mem_singleton.1 h]
      exact hcur (by simpa [List.isEmpty_iff] using hcurE)

theorem foldl_clusterStep_ok (thr : ℚ) (l : List Point) :
    ∀ (done : List (List Point)) (cur : List Point) (t : ℚ),
      (∀ c ∈ done, sumDur c ≤ thr ∨ ∃ p, c = [p] ∧ thr < p.duration) →
      t = sumDur cur →
      (cur = [] ∨ sumDur cur ≤ thr ∨ ∃ p, cur = [p] ∧ thr < p.duration) →
      ∀ c ∈ clusterFinish (l.foldl (clusterStep thr) (done, cur, t)),
        sumDur c ≤ thr ∨ ∃ p, c = [p] ∧ thr < p.duration := by
  induction l with
  | nil =>
    intro done cur t hdone ht hcur
    rw [List.foldl_nil, clusterFinish_eq]
    apply mem_closed _ _ _ hdone
    intro hne
    rcases hcur with h0 | h0
    · exact absurd h0 hne
    · exact h0
  | cons p l ih =>
    intro done cur t hdone ht hcur
    rw [List.foldl_cons, clusterStep_eq]
    by_cases hover : thr < t + p.duration
    · rw [if_pos hover]
      apply ih
      · apply mem_closed _ _ _ hdone
        intro hne
        rcases hcur with h0 | h0
        · exact absurd h0 hne
        · exact h0
      · rw [sumDur_single]
      · rcases le_or_lt p.duration thr with hle | hlt
        · exact Or.inr (Or.inl (by rw [sumDur_single]; exact hle))
        · exact Or.inr (Or.inr ⟨p, rfl, hlt⟩)
    · rw [if_neg hover]
      apply ih
      · exact hdone
      · rw [sumDur_append, sumDur_single, ht]
      · refine Or.inr (Or.inl ?_)
        rw [sumDur_append, sumDur_single, ← ht]
        exact le_of_not_lt hover

/-- C3: every cluster produced by `cluster_points_by_time` has total service
duration at most `0.8 * maxHoursPerDay * 60` minutes, except that a single
point whose own duration exceeds that threshold forms its own one-point
cluster (and is never dropped, by the partition property of the clusters). -/
theorem c3_cluster_time_bound (pts : List Point) (mh : ℚ) :
    ∀ c ∈ cluster_points_by_time pts mh,
      sumDur c ≤ mh * 60 * (4 / 5) ∨ ∃ p, c = [p] ∧ mh * 60 * (4 / 5) < p.duration := by
  intro c hc
  unfold cluster_points_by_time at hc
  split at hc
  · simp at hc
  · unfold clusterGreedy at hc
    exact foldl_clusterStep_ok _ _ [] [] 0 (by simp) (by simp [sumDur]) (Or.inl rfl) c hc

theorem foldl_clusterStep_flatten (thr : ℚ) (l : List Point) :
    ∀ (done : List (List Point)) (cur : List Point) (t : ℚ),
      (clusterFinish (l.foldl (clusterStep thr) (done, cur, t))).flatten =
        done.flatten ++ cur ++ l := by
  induction l with
  | nil =>
    intro done cur t
    rw [List.foldl_nil, clusterFinish_eq]
    by_cases hcurE : cur.isEmpty
    · rw [if_pos hcurE, List.isEmpty_iff.1 hcurE]
      simp
    · rw [if_neg hcurE]
      simp
  | cons p l ih =>
    intro done cur t
    rw [List.foldl_cons, clusterStep_eq]
    by_cases hover : thr < t + p.duration
    · rw [if_pos hover, ih]
      by_cases hcurE : cur.isEmpty
      · rw [if_pos hcurE, List.isEmpty_iff.1 hcurE]
        simp
      · rw [if_neg hcurE]
        simp
    · rw [if_neg hover, ih]
      simp

theorem clusterGreedy_flatten (l : List Point) (thr : ℚ) :
    (clusterGreedy l thr).flatten = l := by
  unfold clusterGreedy
  rw [foldl_clusterStep_flatten]
  simp

theorem foldl_clusterStep_ne_nil (thr : ℚ) (l : List Point) :
    ∀ (done : List (List Point)) (cur : List Point) (t : ℚ),
      (∀ c ∈ done, c ≠ []) →
      ∀ c ∈ clusterFinish (l.foldl (clusterStep thr) (done, cur, t)), c ≠ [] := by
  induction l with
  | nil =>
    intro done cur t hdone
    rw [List.foldl_nil, clusterFinish_eq]
    exact mem_closed _ _ _ hdone (fun hne => hne)
  | cons p l ih =>
    intro done cur t hdone
    rw [List.foldl_cons, clusterStep_eq]
    by_cases hover : thr < t + p.duration
    · rw [if_pos hover]
      exact ih _ _ _ (mem_closed _ _ _ hdone (fun hne => hne))
    · rw [if_neg hover]
      exact ih _ _ _ hdone

/-- C10: the clusters returned by `cluster_points_by_time` partition the
input day's points — every cluster is non-empty, and their concatenation is a
permutation of the input list (no point dropped or duplicated). -/
theorem c10_clusters_partition (pts : List Point) (mh : ℚ) :
    (∀ c ∈ cluster_points_by_time pts mh, c ≠ []) ∧
    (cluster_points_by_time pts mh).flatten.Perm pts := by
  constructor
  · intro c hc
    unfold cluster_points_by_time at hc
    split at hc
    · simp at hc
    · unfold clusterGreedy at hc
      exact foldl_clusterStep_ne_nil _ _ [] [] 0 (by simp) c hc
  · unfold cluster_points_by_time
    split
    case isTrue h =>
      rw [List.isEmpty_iff.1 h]
      exact List.Perm.refl _
    case isFalse h =>
      rw [clusterGreedy_flatten]
      exact sortByCentroid_perm pts

theorem cluster_single :
    cluster_points_by_time [pEx] 8 = [[pEx]] := by
  unfold cluster_points_by_time
  rw [if_neg (by simp)]
  rw [sortByCentroid_all_eq [pEx] pEx (by simp)]
  unfold clusterGreedy
  rw [List.foldl_cons, clusterStep_eq, if_neg (by simp [pEx]; norm_num),
    List.foldl_nil, clusterFinish_eq, if_neg (by simp)]
  rfl

/-- Witness for C3 at a concrete input: the single cluster of one 60-minute
point under an 8-hour budget satisfies the threshold disjunction. -/
theorem c3_cluster_time_bound_witness :
    sumDur [pEx] ≤ 8 * 60 * (4 / 5) ∨
      ∃ p, [pEx] = [p] ∧ (8 : ℚ) * 60 * (4 / 5) < p.duration :=
  c3_cluster_time_bound [pEx] 8 [pEx] (by rw [cluster_single]; simp)

/-- Witness for C10 at a concrete input. -/
theorem c10_clusters_partition_witness :
    ([pEx] : List Point) ≠ [] ∧
      (cluster_points_by_time [pEx] 8).flatten.Perm [pEx] :=
  ⟨(c10_clusters_partition [pEx] 8).1 [pEx] (by rw [cluster_single]; simp),
    (c10_clusters_partition [pEx] 8).2⟩

theorem clusterGreedy_sixty (a b c : Point) (ha : a.duration = 60)
    (hb : b.duration = 60) (hc : c.duration = 60) :
    clusterGreedy [a, b, c] 96 = [[a], [b], [c]] := by
  unfold clusterGreedy
  rw [List.foldl_cons, clusterStep_eq, if_neg (by rw [ha]; norm_num)]
  rw [List.foldl_cons, clusterStep_eq, if_pos (by rw [ha, hb]; norm_num),
    if_neg (by simp)]
  rw [List.foldl_cons, clusterStep_eq, if_pos (by rw [hb, hc]; norm_num),
    if_neg (by simp)]
  rw [List.foldl_nil, clusterFinish_eq, if_neg (by simp)]
  simp

/-- C5 (amended): for three points of duration 60 each under
`maxHoursPerDay = 2`, the day's clustering produces three one-point routes,
not two — the first route holds one point (within the claimed bound of at
most 2), but each remaining point starts its own further route on the same
day, because `60 + 60` already exceeds the `0.8 * 120 = 96` minute
threshold. -/
theorem c5_three_singleton_routes (pts : List Point) (h3 : pts.length = 3)
    (h60 : ∀ p ∈ pts, p.duration = 60) :
    (cluster_points_by_time pts 2).length = 3 ∧
    ∀ c ∈ cluster_points_by_time pts 2, c.length = 1 := by
  have hne : pts ≠ [] := by
    intro h
    rw [h] at h3
    simp at h3
  have hperm := sortByCentroid_perm pts
  have hlen : (sortByCentroid pts).length = 3 := hperm.length_eq.trans h3
  obtain ⟨a, b, c, habc⟩ := List.length_eq_three.1 hlen
  have ha : a.duration = 60 := h60 a (hperm.mem_iff.1 (by rw [habc]; simp))
  have hb : b.duration = 60 := h60 b (hperm.mem_iff.1 (by rw [habc]; simp))
  have hcd : c.duration = 60 := h60 c (hperm.mem_iff.1 (by rw [habc]; simp))
  have hcl : cluster_points_by_time pts 2 = [[a], [b], [c]] := by
    unfold cluster_points_by_time
    rw [if_neg (by simpa [List.isEmpty_iff] using hne), habc,
      show ((2 : ℚ) * 60 * (4 / 5)) = 96 by norm_num,
      clusterGreedy_sixty a b c ha hb hcd]
  rw [hcl]
  refine ⟨rfl, ?_⟩
  intro cl hcl2
  rcases List.mem_cons.1 hcl2 with h | h
  · rw [h]; rfl
  rcases List.mem_cons.1 h with h2 | h2
  · rw [h2]; rfl
  rcases List.mem_cons.1 h2 with h3 | h3
  · rw [h3]; rfl
  · simp at h3

/-- C5 counterexample: three 60-minute points at identical coordinates with
`maxHoursPerDay = 2` produce three routes, so the remaining points do not go
into a single second route as claimed (which would require exactly two). -/
theorem c5_counterexample :
    (cluster_points_by_time [pEx, pEx, pEx] 2).length = 3 ∧
    (cluster_points_by_time [pEx, pEx, pEx] 2).length ≠ 2 := by
  have h : cluster_points_by_time [pEx, pEx, pEx] 2 = [[pEx], [pEx], [pEx]] := by
    unfold cluster_points_by_time
    rw [if_neg (by simp), sortByCentroid_all_eq _ pEx (by simp),
      show ((2 : ℚ) * 60 * (4 / 5)) = 96 by norm_num,
      clusterGreedy_sixty pEx pEx pEx rfl rfl rfl]
  rw [h]
  exact ⟨rfl, by decide⟩

/-- Witness for C5 (amended) at a concrete input. -/
theorem c5_three_singleton_routes_witness :
    ([pEx, pEx, pEx] : List Point).length = 3 ∧
    (cluster_points_by_time [pEx, pEx, pEx] 2).length = 3 :=
  ⟨rfl, (c5_three_singleton_routes [pEx, pEx, pEx] rfl
    (by
      intro p hp
      rcases List.mem_cons.1 hp with h | h
      · rw [h]; rfl
      rcases List.mem_cons.1 h with h2 | h2
      · rw [h2]; rfl
      rcases List.mem_cons.1 h2 with h3 | h3
      · rw [h3]; rfl
      · simp at h3)).1⟩

theorem mem_buildRoutes (cs : List (List Point)) (eid : Nat) :
    ∀ (rid : Nat) (r : Route), r ∈ buildRoutes cs eid rid →
      ∃ c n, r = mkRoute c eid n := by
  induction cs with
  | nil =>
    intro rid r hr
    simp [buildRoutes] at hr
  | cons c rest ih =>
    intro rid r hr
    unfold buildRoutes at hr
    by_cases hcE : c.isEmpty
    · rw [if_pos hcE] at hr
      exact ih rid r hr
    · rw [if_neg hcE] at hr
      rcases List.mem_cons.1 hr with h | h
      · exact ⟨c, rid, h⟩
      · exact ih (rid + 1) r h

/-- C7: every route produced by `optimize_routes_for_day` has
`total_time_min` exactly equal to its `service_time_min` plus its
`travel_time_min`, its service time equal to the sum of its points'
durations, and its travel time equal to the sum of the travel-time estimates
over consecutive pairs of its ordered points. -/
theorem c7_route_metrics (day_points : List Point) (mh : ℚ) (eid : Nat) :
    ∀ r ∈ optimize_routes_for_day day_points mh eid,
      r.total_time_min = (r.service_time_min : ℝ) + r.travel_time_min ∧
      r.service_time_min = sumDur r.points ∧
      r.travel_time_min = travelSum r.points := by
  intro r hr
  unfold optimize_routes_for_day at hr
  split at hr
  · simp at hr
  · obtain ⟨c, n, rfl⟩ := mem_buildRoutes _ _ _ r hr
    exact ⟨rfl, rfl, rfl⟩

theorem opt_day_single : optimize_routes_for_day [pEx] 8 1 = [mkRoute [pEx] 1 1] := by
  unfold optimize_routes_for_day
  rw [if_neg (by simp), cluster_single]
  unfold buildRoutes
  rw [if_neg (by simp)]
  rfl

/-- Witness for C7 at a concrete input: the single route of a one-point day. -/
theorem c7_route_metrics_witness :
    (mkRoute [pEx] 1 1).total_time_min =
      ((mkRoute [pEx] 1 1).service_time_min : ℝ) + (mkRoute [pEx] 1 1).travel_time_min :=
  (c7_route_metrics [pEx] 8 1 (mkRoute [pEx] 1 1) (by rw [opt_day_single]; simp)).1

theorem mlookup_addVisit (m : List (Nat × List Point)) (day : Nat) (v : Point) (k : Nat) :
    mlookup (addVisit m day v) k =
      if day = k then mlookup m k ++ [v] else mlookup m k := by
  induction m with
  | nil =>
    by_cases h : day = k <;> simp [addVisit, mlookup, h]
  | cons e rest ih =>
    unfold addVisit
    by_cases h1 : e.1 = day
    · rw [if_pos h1]
      by_cases h2 : e.1 = k
      · have hdk : day = k := h1.symm.trans h2
        simp [mlookup, h2, hdk]
      · have hdk : ¬day = k := fun hh => h2 (h1.trans hh)
        simp [mlookup, h2, hdk]
    · rw [if_neg h1]
      by_cases h2 : e.1 = k
      · have hdk : ¬day = k := fun hh => h1 (h2.trans hh.symm)
        simp [mlookup, h2, hdk]
      · by_cases hdk : day = k
        · subst hdk
          simp [mlookup, h2, ih]
        · simp [mlookup, h2, hdk, ih]

theorem buildVisitMapFrom_append (days : List Nat) (v : Point) (vs : List Point) :
    ∀ (i : Nat) (m : List (Nat × List Point)),
      buildVisitMapFrom days i (vs ++ [v]) m =
        addVisit (buildVisitMapFrom days i vs m)
          (days.getD ((i + vs.length) % days.length) 0) v := by
  induction vs with
  | nil =>
    intro i m
    simp [buildVisitMapFrom]
  | cons w ws ih =>
    intro i m
    simp only [List.cons_append]
    unfold buildVisitMapFrom
    rw [ih]
    simp only [List.length_cons]
    rw [show i + 1 + ws.length = i + (ws.length + 1) from by omega]

theorem mlookup_buildVisitMap (days : List Nat) (av : List Point) (k : Nat) :
    mlookup (buildVisitMap av days) k =
      ((List.range av.length).filter
        (fun i => days.getD (i % days.length) 0 == k)).map
        (fun i => av.getD i default) := by
  induction av using List.reverseRecOn with
  | nil => simp [buildVisitMap, buildVisitMapFrom, mlookup]
  | append_singleton av v ih =>
    have happ : buildVisitMap (av ++ [v]) days =
        addVisit (buildVisitMap av days)
          (days.getD ((0 + av.length) % days.length) 0) v :=
      buildVisitMapFrom_append days v av 0 []
    rw [happ, mlookup_addVisit, ih, List.length_append, List.length_singleton,
      List.range_succ, List.filter_append, List.map_append]
    have hmap :
        ((List.range av.length).filter
          (fun i => days.getD (i % days.length) 0 == k)).map
            (fun i => (av ++ [v]).getD i default) =
        ((List.range av.length).filter
          (fun i => days.getD (i % days.length) 0 == k)).map
            (fun i => av.getD i default) := by
      apply List.map_congr_left
      intro i hi
      exact List.getD_append _ _ _ _ (List.mem_range.1 (List.mem_filter.1 hi).1)
    rw [hmap, Nat.zero_add]
    have hv : (av ++ [v]).getD av.length default = v := by
      rw [List.getD_append_right _ _ _ _ (le_refl _)]
      simp
    by_cases hk : days.getD (av.length % days.length) 0 = k
    · rw [if_pos hk]
      have hfil : List.filter (fun i => days.getD (i % days.length) 0 == k)
          [av.length] = [av.length] := by
        rw [List.filter_singleton,
          show (days.getD (av.length % days.length) 0 == k) = true from beq_iff_eq.mpr hk,
          cond_true]
      rw [hfil]
      simp [hv]
    · rw [if_neg hk]
      have hfil : List.filter (fun i => days.getD (i % days.length) 0 == k)
          [av.length] = [] := by
        rw [List.filter_singleton,
          show (days.getD (av.length % days.length) 0 == k) = false from
            beq_eq_false_iff_ne.mpr hk,
          cond_false]
      rw [hfil]
      simp

theorem count_mod_filter (D j : Nat) (hD : 0 < D) (hj : j < D) :
    ∀ N, ((List.range N).filter (fun i => i % D == j)).length =
      N / D + (if j < N % D then 1 else 0) := by
  intro N
  induction N with
  | zero => simp
  | succ N ih =>
    have hq := Nat.div_add_mod N D
    have hr : N % D < D := Nat.mod_lt N hD
    rw [List.range_succ, List.filter_append, List.length_append, ih]
    by_cases hcase : N % D + 1 = D
    · have hN1 : N + 1 = D * (N / D + 1) + 0 := by rw [Nat.mul_succ]; omega
      have hdiv : (N + 1) / D = N / D + 1 := by
        rw [hN1, Nat.mul_add_div hD]
        simp
      have hmodd : (N + 1) % D = 0 := by
        rw [hN1, Nat.mul_add_mod]
        simp
      rw [hdiv, hmodd]
      by_cases hNj : N % D = j
      · rw [show List.filter (fun i => i % D == j) [N] = [N] from by rw [List.filter_singleton, show (N % D == j) = true from beq_iff_eq.mpr hNj, cond_true]]
        simp only [List.length_singleton]
        split_ifs <;> omega
      · rw [show List.filter (fun i => i % D == j) [N] = [] from by rw [List.filter_singleton, show (N % D == j) = false from beq_eq_false_iff_ne.mpr hNj, cond_false]]
        simp only [List.length_nil]
        split_ifs <;> omega
    · have hlt : N % D + 1 < D := by omega
      have hN1 : N + 1 = D * (N / D) + (N % D + 1) := by omega
      have hdiv : (N + 1) / D = N / D := by
        rw [hN1, Nat.mul_add_div hD, Nat.div_eq_of_lt hlt]
        rfl
      have hmodd : (N + 1) % D = N % D + 1 := by
        rw [hN1, Nat.mul_add_mod, Nat.mod_eq_of_lt hlt]
      rw [hdiv, hmodd]
      by_cases hNj : N % D = j
      · rw [show List.filter (fun i => i % D == j) [N] = [N] from by rw [List.filter_singleton, show (N % D == j) = true from beq_iff_eq.mpr hNj, cond_true]]
        simp only [List.length_singleton]
        split_ifs <;> omega
      · rw [show List.filter (fun i => i % D == j) [N] = [] from by rw [List.filter_singleton, show (N % D == j) = false from beq_eq_false_iff_ne.mpr hNj, cond_false]]
        simp only [List.length_nil]
        split_ifs <;> omega

theorem quarterDays_nodup (s : Nat) : (quarterDays s).Nodup := by
  unfold quarterDays
  have hinj : Function.Injective (fun i : Nat => s + i) := by
    intro a b h
    simpa using h
  exact ((List.nodup_range 90).map hinj).filter _

/-- C6: `distribute_visits_by_quarter` assigns visit instance `i` (0-indexed,
in expansion order) to working day `i mod D`, where `D` is the number of
working days: the bucket of the `j`-th working day is exactly the instances
whose index is congruent to `j` modulo `D`.  Consequently any two per-day
instance counts differ by at most 1, so over the days receiving at least one
instance the max and min counts differ by at most 1. -/
theorem c6_round_robin (pts : List Point) (s : Nat) (_hne : pts ≠ []) :
    (∀ j, j < (quarterDays s).length →
      mlookup (distribute_visits_by_quarter pts s) ((quarterDays s).getD j 0) =
        ((List.range (expandVisits pts).length).filter
          (fun i => i % (quarterDays s).length == j)).map
          (fun i => (expandVisits pts).getD i default)) ∧
    (∀ j1 j2, j1 < (quarterDays s).length → j2 < (quarterDays s).length →
      mlookup (distribute_visits_by_quarter pts s) ((quarterDays s).getD j1 0) ≠ [] →
      mlookup (distribute_visits_by_quarter pts s) ((quarterDays s).getD j2 0) ≠ [] →
      (mlookup (distribute_visits_by_quarter pts s) ((quarterDays s).getD j1 0)).length ≤
        (mlookup (distribute_visits_by_quarter pts s) ((quarterDays s).getD j2 0)).length + 1) := by
  have hmain : ∀ j, j < (quarterDays s).length →
      mlookup (distribute_visits_by_quarter pts s) ((quarterDays s).getD j 0) =
        ((List.range (expandVisits pts).length).filter
          (fun i => i % (quarterDays s).length == j)).map
          (fun i => (expandVisits pts).getD i default) := by
    intro j hj
    have hD : 0 < (quarterDays s).length := Nat.lt_of_le_of_lt (Nat.zero_le j) hj
    have hdist : distribute_visits_by_quarter pts s =
        buildVisitMap (expandVisits pts) (quarterDays s) := by
      unfold distribute_visits_by_quarter
      rw [if_neg (by omega)]
    rw [hdist, mlookup_buildVisitMap]
    congr 1
    apply List.filter_congr
    intro i _
    by_cases h : i % (quarterDays s).length = j
    · simp [h]
    · have hne2 : (quarterDays s).getD (i % (quarterDays s).length) 0 ≠
          (quarterDays s).getD j 0 := by
        intro he
        apply h
        rw [List.getD_eq_getElem _ _ (Nat.mod_lt i hD),
          List.getD_eq_getElem _ _ hj] at he
        exact ((quarterDays_nodup s).getElem_inj_iff).1 he
      rw [show ((quarterDays s).getD (i % (quarterDays s).length) 0 ==
            (quarterDays s).getD j 0) = false from beq_eq_false_iff_ne.mpr hne2,
        show ((i % (quarterDays s).length) == j) = false from beq_eq_false_iff_ne.mpr h]
  refine ⟨hmain, ?_⟩
  intro j1 j2 hj1 hj2 hne1 hne2
  have hD : 0 < (quarterDays s).length := Nat.lt_of_le_of_lt (Nat.zero_le j1) hj1
  rw [hmain j1 hj1, hmain j2 hj2, List.length_map, List.length_map,
    count_mod_filter _ _ hD hj1, count_mod_filter _ _ hD hj2]
  split_ifs <;> omega

/-- Witness for C6 at a concrete input: one point of frequency 1 starting at
day 0 — its single visit instance lands in the bucket of the first working
day. -/
theorem c6_round_robin_witness :
    ([pEx] : List Point) ≠ [] ∧ 0 < (quarterDays 0).length ∧
    mlookup (distribute_visits_by_quarter [pEx] 0) ((quarterDays 0).getD 0 0) = [pEx] := by
  have h := (c6_round_robin [pEx] 0 (by simp)).1 0 (by decide)
  refine ⟨by simp, by decide, ?_⟩
  rw [h]
  rfl

theorem rlookup_addRoute (m : List (Nat × List Route)) (day : Nat) (r : Route) (k : Nat) :
    rlookup (addRoute m day r) k =
      if day = k then rlookup m k ++ [r] else rlookup m k := by
  induction m with
  | nil =>
    by_cases h : day = k <;> simp [addRoute, rlookup, h]
  | cons e rest ih =>
    unfold addRoute
    by_cases h1 : e.1 = day
    · rw [if_pos h1]
      by_cases h2 : e.1 = k
      · have hdk : day = k := h1.symm.trans h2
        simp [rlookup, h2, hdk]
      · have hdk : ¬day = k := fun hh => h2 (h1.trans hh)
        simp [rlookup, h2, hdk]
    · rw [if_neg h1]
      by_cases h2 : e.1 = k
      · have hdk : ¬day = k := fun hh => h1 (h2.trans hh.symm)
        simp [rlookup, h2, hdk]
      · by_cases hdk : day = k
        · subst hdk
          simp [rlookup, h2, ih]
        · simp [rlookup, h2, hdk, ih]

theorem routesByDay_append (all : List Route) (r : Route) :
    routesByDay (all ++ [r]) = addRoute (routesByDay all) r.date r := by
  unfold routesByDay
  rw [List.foldl_append]
  rfl

theorem rlookup_routesByDay (all : List Route) (k : Nat) :
    rlookup (routesByDay all) k = all.filter (fun r => r.date == k) := by
  induction all using List.reverseRecOn with
  | nil => simp [routesByDay, rlookup]
  | append_singleton all r ih =>
    rw [routesByDay_append, rlookup_addRoute, List.filter_append, ih]
    by_cases hk : r.date = k
    · rw [if_pos hk, List.filter_singleton,
        show (r.date == k) = true from beq_iff_eq.mpr hk, cond_true]
    · rw [if_neg hk, List.filter_singleton,
        show (r.date == k) = false from beq_eq_false_iff_ne.mpr hk, cond_false]
      simp

theorem keys_addRoute (m : List (Nat × List Route)) (day : Nat) (r : Route) :
    (addRoute m day r).map Prod.fst =
      if day ∈ m.map Prod.fst then m.map Prod.fst else m.map Prod.fst ++ [day] := by
  induction m with
  | nil => simp [addRoute]
  | cons e rest ih =>
    unfold addRoute
    by_cases h1 : e.1 = day
    · rw [if_pos h1]
      have hmem : day ∈ (e :: rest).map Prod.fst := by
        rw [List.map_cons]
        exact h1 ▸ List.mem_cons_self _ _
      rw [if_pos hmem]
      simp
    · rw [if_neg h1, List.map_cons, ih]
      by_cases h2 : day ∈ rest.map Prod.fst
      · rw [if_pos h2, if_pos (by rw [List.map_cons]; exact List.mem_cons_of_mem _ h2),
          List.map_cons]
      · rw [if_neg h2, if_neg ?hnot, List.map_cons, List.cons_append]
        case hnot =>
          rw [List.map_cons]
          intro hmem
          rcases List.mem_cons.1 hmem with h | h
          · exact h1 h.symm
          · exact h2 h

theorem keys_routesByDay_nodup (all : List Route) :
    ((routesByDay all).map Prod.fst).Nodup := by
  induction all using List.reverseRecOn with
  | nil => simp [routesByDay]
  | append_singleton all r ih =>
    rw [routesByDay_append, keys_addRoute]
    by_cases h2 : r.date ∈ (routesByDay all).map Prod.fst
    · rw [if_pos h2]
      exact ih
    · rw [if_neg h2, List.nodup_append]
      refine ⟨ih, List.nodup_singleton _, ?_⟩
      intro a ha hb
      rw [List.mem_singleton] at hb
      exact h2 (hb ▸ ha)

theorem sortedDays_nodup (all : List Route) :
    (sortedDays (routesByDay all)).Nodup := by
  unfold sortedDays
  exact ((sortLe_perm _ _).nodup_iff).2 (keys_routesByDay_nodup all)

theorem tryAssign_some (maxDays day : Nat) (dayRoutes : List Route) :
    ∀ (emps emps2 : List Emp), tryAssign maxDays day dayRoutes emps = some emps2 →
      ∃ pre e post, emps = pre ++ e :: post ∧
        emps2 = pre ++
          ({ e with routes := e.routes ++ dayRoutes.map (setEmp e.id) } :: post) ∧
        ((e.routes.map Route.date).dedup).length < maxDays ∧
        day ∉ (e.routes.map Route.date).dedup := by
  intro emps
  induction emps with
  | nil =>
    intro emps2 h
    simp [tryAssign] at h
  | cons e rest ih =>
    intro emps2 h
    unfold tryAssign at h
    by_cases hc : ((e.routes.map Route.date).dedup).length < maxDays ∧
        day ∉ (e.routes.map Route.date).dedup
    · rw [if_pos hc] at h
      refine ⟨[], e, rest, rfl, ?_, hc.1, hc.2⟩
      simpa using (Option.some.inj h).symm
    · rw [if_neg hc] at h
      obtain ⟨es2, hes2, heq⟩ := Option.map_eq_some'.1 h
      obtain ⟨pre, e0, post, h1, h2, h3, h4⟩ := ih es2 hes2
      exact ⟨e :: pre, e0, post, by rw [h1, List.cons_append],
        by rw [← heq, h2, List.cons_append], h3, h4⟩

theorem dedup_length_append_le (xs ys : List Nat) (d : Nat)
    (hys : ∀ y ∈ ys, y = d) :
    ((xs ++ ys).dedup).length ≤ (xs.dedup).length + 1 := by
  rw [← List.card_toFinset, ← List.card_toFinset]
  have hsub : (xs ++ ys).toFinset ⊆ insert d xs.toFinset := by
    intro a ha
    rw [List.toFinset_append, Finset.mem_union] at ha
    rcases ha with h | h
    · exact Finset.mem_insert_of_mem h
    · rw [List.mem_toFinset] at h
      rw [hys a h]
      exact Finset.mem_insert_self _ _
  calc (xs ++ ys).toFinset.card ≤ (insert d xs.toFinset).card :=
        Finset.card_le_card hsub
    _ ≤ xs.toFinset.card + 1 := Finset.card_insert_le _ _

theorem dedup_length_all_eq (ys : List Nat) (d : Nat) (hys : ∀ y ∈ ys, y = d) :
    (ys.dedup).length ≤ 1 := by
  rw [← List.card_toFinset]
  have hsub : ys.toFinset ⊆ {d} := by
    intro a ha
    rw [List.mem_toFinset] at ha
    rw [hys a ha]
    exact Finset.mem_singleton_self d
  calc ys.toFinset.card ≤ ({d} : Finset Nat).card := Finset.card_le_card hsub
    _ = 1 := Finset.card_singleton d

theorem assignFold_inv (maxDays : Nat) (hmax : 1 ≤ maxDays)
    (byDay : List (Nat × List Route))
    (hb : ∀ d r, r ∈ rlookup byDay d → r.date = d) :
    ∀ (ds : List Nat), ds.Nodup →
    ∀ (emps : List Emp) (counter : Nat),
      (∀ e ∈ emps, distinctDays e.routes ≤ maxDays) →
      (∀ e ∈ emps, ∀ d ∈ ds, ∀ r ∈ e.routes, r.date ≠ d) →
      List.Pairwise
        (fun e1 e2 => ∀ dd, (∃ r ∈ e1.routes, r.date = dd) →
          (∃ r ∈ e2.routes, r.date = dd) → False) emps →
      (∀ e ∈ (List.foldl (assignStep maxDays byDay) (emps, counter) ds).1,
          distinctDays e.routes ≤ maxDays) ∧
      List.Pairwise
        (fun e1 e2 => ∀ dd, (∃ r ∈ e1.routes, r.date = dd) →
          (∃ r ∈ e2.routes, r.date = dd) → False)
        (List.foldl (assignStep maxDays byDay) (emps, counter) ds).1 := by
  intro ds
  induction ds with
  | nil =>
    intro _ emps counter hcap hfresh hpair
    exact ⟨hcap, hpair⟩
  | cons d ds ih =>
    intro hnodup emps counter hcap hfresh hpair
    have hnodup2 : ds.Nodup := (List.nodup_cons.1 hnodup).2
    have hdns : d ∉ ds := (List.nodup_cons.1 hnodup).1
    have hbatch : ∀ c, ∀ r ∈ (rlookup byDay d).map (setEmp c), r.date = d := by
      intro c r hr
      obtain ⟨r0, hr0, rfl⟩ := List.mem_map.1 hr
      exact hb d r0 hr0
    rw [List.foldl_cons]
    cases htry : tryAssign maxDays d (rlookup byDay d) emps with
    | none =>
      have hstep : assignStep maxDays byDay (emps, counter) d =
          (emps ++ [⟨counter, (rlookup byDay d).map (setEmp counter)⟩], counter + 1) := by
        simp only [assignStep, htry]
      rw [hstep]
      apply ih hnodup2
      · intro e he
        rcases List.mem_append.1 he with h | h
        · exact hcap e h
        · rw [List.mem_singleton.1 h]
          unfold distinctDays
          refine le_trans (dedup_length_all_eq _ d ?_) hmax
          intro y hy
          obtain ⟨r, hr, rfl⟩ := List.mem_map.1 hy
          exact hbatch counter r hr
      · intro e he d2 hd2 r hr
        rcases List.mem_append.1 he with h | h
        · exact hfresh e h d2 (List.mem_cons_of_mem d hd2) r hr
        · rw [List.mem_singleton.1 h] at hr
          rw [hbatch counter r hr]
          intro heq
          exact hdns (heq ▸ hd2)
      · rw [List.pairwise_append]
        refine ⟨hpair, List.pairwise_singleton _ _, ?_⟩
        intro a ha b hb dd h1 h2
        rw [List.mem_singleton] at hb
        subst hb
        obtain ⟨r2, hr2, hrd2⟩ := h2
        have hdd : dd = d := hrd2 ▸ hbatch counter r2 hr2
        subst hdd
        obtain ⟨r1, hr1, hrd1⟩ := h1
        exact hfresh a ha dd (List.mem_cons_self _ _) r1 hr1 hrd1
    | some emps2 =>
      have hstep : assignStep maxDays byDay (emps, counter) d = (emps2, counter) := by
        simp only [assignStep, htry]
      rw [hstep]
      obtain ⟨pre, e, post, hdec, hdec2, hclt, hnin⟩ :=
        tryAssign_some maxDays d (rlookup byDay d) emps emps2 htry
      subst hdec
      subst hdec2
      rw [List.pairwise_append] at hpair
      obtain ⟨hp_pre, hp_cons, hp_cross⟩ := hpair
      obtain ⟨hp_e_post, hp_post⟩ := List.pairwise_cons.1 hp_cons
      have hmem_e : e ∈ pre ++ e :: post :=
        List.mem_append_right _ (List.mem_cons_self _ _)
      have hmem_pre : ∀ a ∈ pre, a ∈ pre ++ e :: post := fun a ha =>
        List.mem_append_left _ ha
      have hmem_post : ∀ b ∈ post, b ∈ pre ++ e :: post := fun b hb =>
        List.mem_append_right _ (List.mem_cons_of_mem _ hb)
      have hsplit : ∀ dd r, r ∈ e.routes ++ (rlookup byDay d).map (setEmp e.id) →
          r.date = dd → (∃ r0 ∈ e.routes, r0.date = dd) ∨ dd = d := by
        intro dd r hr hrd
        rcases List.mem_append.1 hr with h | h
        · exact Or.inl ⟨r, h, hrd⟩
        · exact Or.inr (hrd ▸ (hbatch e.id r h).symm ▸ rfl)
      apply ih hnodup2
      · intro x hx
        rcases List.mem_append.1 hx with h | h
        · exact hcap x (hmem_pre x h)
        · rcases List.mem_cons.1 h with h2 | h2
          · subst h2
            unfold distinctDays
            rw [List.map_append]
            refine le_trans (dedup_length_append_le _ _ d ?_) ?_
            · intro y hy
              obtain ⟨r, hr, rfl⟩ := List.mem_map.1 hy
              exact hbatch e.id r hr
            · omega
          · exact hcap x (hmem_post x h2)
      · intro x hx d2 hd2 r hr
        rcases List.mem_append.1 hx with h | h
        · exact hfresh x (hmem_pre x h) d2 (List.mem_cons_of_mem d hd2) r hr
        · rcases List.mem_cons.1 h with h2 | h2
          · subst h2
            rcases List.mem_append.1 hr with h3 | h3
            · exact hfresh e hmem_e d2 (List.mem_cons_of_mem d hd2) r h3
            · rw [hbatch e.id r h3]
              intro heq
              exact hdns (heq ▸ hd2)
          · exact hfresh x (hmem_post x h2) d2 (List.mem_cons_of_mem d hd2) r hr
      · rw [List.pairwise_append]
        refine ⟨hp_pre, ?_, ?_⟩
        · rw [List.pairwise_cons]
          refine ⟨?_, hp_post⟩
          intro b hbm dd h1 h2
          obtain ⟨r, hr, hrd⟩ := h1
          rcases hsplit dd r hr hrd with hcase | hcase
          · exact hp_e_post b hbm dd hcase h2
          · subst hcase
            obtain ⟨r2, hr2, hrd2⟩ := h2
            exact hfresh b (hmem_post b hbm) dd (List.mem_cons_self _ _) r2 hr2 hrd2
        · intro a ha b hbm dd h1 h2
          rcases List.mem_cons.1 hbm with h3 | h3
          · subst h3
            obtain ⟨r2, hr2, hrd2⟩ := h2
            rcases hsplit dd r2 hr2 hrd2 with hcase | hcase
            · exact hp_cross a ha e (List.mem_cons_self _ _) dd h1 hcase
            · subst hcase
              obtain ⟨r1, hr1, hrd1⟩ := h1
              exact hfresh a (hmem_pre a ha) dd (List.mem_cons_self _ _) r1 hr1 hrd1
          · exact hp_cross a ha b (List.mem_cons_of_mem _ h3) dd h1 h2

/-- C2 (amended): provided the weekly day cap is at least 1, every employee
produced by the assignment has at most `maxDaysPerWeek` distinct calendar
days among its routes — the invariant holds by construction throughout the
greedy fold — and a calendar day's routes belong to a single employee: two
employee positions sharing a route date coincide.  (The cap `0` is violated,
see the counterexample: a new employee is created for an unassignable day and
immediately holds one day.) -/
theorem c2_employee_day_cap (all : List Route) (maxDays : Nat) (hmax : 1 ≤ maxDays) :
    (∀ e ∈ assignEmployees all maxDays, distinctDays e.routes ≤ maxDays) ∧
    (∀ d i j, i < (assignEmployees all maxDays).length →
      j < (assignEmployees all maxDays).length →
      (∃ r ∈ ((assignEmployees all maxDays).getD i ⟨0, []⟩).routes, r.date = d) →
      (∃ r ∈ ((assignEmployees all maxDays).getD j ⟨0, []⟩).routes, r.date = d) →
      i = j) := by
  have hb : ∀ d r, r ∈ rlookup (routesByDay all) d → r.date = d := by
    intro d r hr
    rw [rlookup_routesByDay] at hr
    exact beq_iff_eq.1 (List.mem_filter.1 hr).2
  have hinv := assignFold_inv maxDays hmax (routesByDay all) hb
    (sortedDays (routesByDay all)) (sortedDays_nodup all) [] 1
    (by intro e he; simp at he) (by intro e he; simp at he) List.Pairwise.nil
  have hLeq : assignEmployees all maxDays =
      (List.foldl (assignStep maxDays (routesByDay all)) ([], 1)
        (sortedDays (routesByDay all))).1 := rfl
  rw [← hLeq] at hinv
  refine ⟨hinv.1, ?_⟩
  intro d i j hi hj h1 h2
  rw [List.getD_eq_getElem _ _ hi] at h1
  rw [List.getD_eq_getElem _ _ hj] at h2
  have hpair := List.pairwise_iff_getElem.1 hinv.2
  by_contra hne
  rcases Nat.lt_or_ge i j with hij | hij
  · exact hpair i j hi hj hij d h1 h2
  · have hji : j < i := by omega
    exact hpair j i hj hi hji d h2 h1

/-- A sample route used to instantiate the assignment theorems: one route
dated day 5 with no points. -/
def rEx : Route := ⟨"R1_1", "Сотрудник_1", 5, 1, [], 0, 0, 0, 0⟩

/-- C2 counterexample: with the weekly day cap set to 0, the single route's
day cannot be assigned to any employee, so a fresh employee is created and
immediately owns 1 > 0 distinct days — the invariant as claimed fails. -/
theorem c2_counterexample :
    ¬ ∀ e ∈ assignEmployees [rEx] 0, distinctDays e.routes ≤ 0 := by
  intro hall
  have h : assignEmployees [rEx] 0 = [⟨1, [setEmp 1 rEx]⟩] := rfl
  have h2 := hall ⟨1, [setEmp 1 rEx]⟩ (by rw [h]; exact List.mem_singleton.2 rfl)
  simp [distinctDays, setEmp, rEx] at h2

/-- Witness for C2 (amended) at a concrete input: cap 1, a single one-day
route; the single produced employee owns 1 ≤ 1 distinct days. -/
theorem c2_employee_day_cap_witness :
    distinctDays ((assignEmployees [rEx] 1).headD ⟨0, []⟩).routes ≤ 1 := by
  have h : assignEmployees [rEx] 1 = [⟨1, [setEmp 1 rEx]⟩] := rfl
  exact (c2_employee_day_cap [rEx] 1 (le_refl 1)).1 _ (by rw [h]; simp)

end RouteOptimizer
